import Mathlib

/-!
# Verification of the PhosDocs classification / generation / assembly pipeline

This file shallowly embeds the core pipeline of the PhosDocs repository:

* the classifier `parseMarkdownContent` of `backend/services/wordService.js`,
* the per-item renderer `createStyledContentList` and the section assembly
  of `generateWordDocument` in the same file,
* the resilient section processor `processSection` / `processAllSections`
  (OpenRouter section service),
* the logo image fitting arithmetic of `createHeaderWithLogo`.

JavaScript strings are modelled as lists of characters (`JStr`); the
JavaScript functions used by the code (`trim`, `toLowerCase`, `includes`,
`startsWith`, `split('\n')`, first-occurrence `replace`) are embedded as
executable Lean functions over `JStr`.  Values that may be `null` /
non-string in JavaScript are modelled by the small universe `JSVal`.
-/

set_option autoImplicit false

namespace PhosDocs

/-- A JavaScript string, modelled as its list of characters (code points). -/
abbrev JStr := List Char

/-- Whitespace recognized by JavaScript `trim` / `\s` (ASCII inventory;
the pipeline's data never contains the more exotic Unicode space chars). -/
def jsWhitespace (c : Char) : Bool :=
  c = ' ' || c = '\t' || c = '\n' || c = '\r' || c = '\x0b' || c = '\x0c'

/-- Drop leading whitespace (the left half of JavaScript `trim`). -/
def trimLeft (l : JStr) : JStr := l.dropWhile jsWhitespace

/-- Drop trailing whitespace (the right half of JavaScript `trim`). -/
def trimRight (l : JStr) : JStr := ((l.reverse.dropWhile jsWhitespace)).reverse

/-- JavaScript `String.prototype.trim`. -/
def trimStr (l : JStr) : JStr := trimRight (trimLeft l)

/-- JavaScript `toLowerCase` on one character, for the ASCII and Latin-1
letters occurring in the code's marker/keyword tables. -/
def jsToLowerChar (c : Char) : Char :=
  if 'A' ≤ c ∧ c ≤ 'Z' then Char.ofNat (c.toNat + 32)
  else if 0xC0 ≤ c.toNat ∧ c.toNat ≤ 0xDE ∧ c.toNat ≠ 0xD7 then Char.ofNat (c.toNat + 32)
  else c

/-- JavaScript `toUpperCase` on one character (same character inventory). -/
def jsToUpperChar (c : Char) : Char :=
  if 'a' ≤ c ∧ c ≤ 'z' then Char.ofNat (c.toNat - 32)
  else if 0xE0 ≤ c.toNat ∧ c.toNat ≤ 0xFE ∧ c.toNat ≠ 0xF7 then Char.ofNat (c.toNat - 32)
  else c

/-- JavaScript `String.prototype.toLowerCase`. -/
def toLowerStr (l : JStr) : JStr := l.map jsToLowerChar

/-- JavaScript `String.prototype.includes pat`. -/
def containsSub (pat : JStr) : JStr → Bool
  | [] => pat.isEmpty
  | c :: t => pat.isPrefixOf (c :: t) || containsSub pat t

/-- JavaScript `String.prototype.replace` with a plain-string pattern:
replace the first (leftmost) occurrence only. -/
def replaceFirst : JStr → JStr → JStr → JStr
  | s, pat, rep =>
    if pat.isPrefixOf s then rep ++ s.drop pat.length
    else
      match s with
      | [] => []
      | c :: t => c :: replaceFirst t pat rep

/-- A JavaScript value as seen by the validation code: `null`/`undefined`,
a string, or some non-string value. -/
inductive JSVal where
  | null
  | str (s : JStr)
  | other
  deriving DecidableEq, Repr

/-! ## Classifier (`parseMarkdownContent`, `wordService.js` lines 515–616) -/

/-- One classified entry `{ type, content }` as pushed by
`parseMarkdownContent`. -/
structure Sec where
  type : String
  content : JStr
  deriving DecidableEq, Repr

/-- Explicit marker aliases for `feature` (line 539). -/
def featureTags : List String := ["nova", "new", "funcionalidade"]

/-- Explicit marker aliases for `bugfix` (line 544). -/
def bugfixTags : List String := ["correção", "bug", "fixed"]

/-- Explicit marker aliases for `performance` (line 549). -/
def performanceTags : List String := ["performance", "melhoria", "speed"]

/-- Explicit marker aliases for `security` (line 554). -/
def securityTags : List String := ["segurança", "security"]

/-- Explicit marker aliases for `resource` (line 559). -/
def resourceTags : List String := ["recurso", "resource", "manual"]

/-- Model of `lowerTrimmedLine.startsWith('[tag]')` over a list of candidate tags,
returning the first matching tag (the `startsWith` disjunctions of lines
539–559; the stripping regexes list the alternatives in the same order). -/
def findTag (tags : List String) (lower : JStr) : Option String :=
  tags.find? fun t => (("[" ++ t ++ "]").data).isPrefixOf lower

/-- Keyword set for the `feature` heuristic branch (line 564). -/
def featureKws : List String := ["nova", "new", "adicionado", "implementado"]

/-- Keyword set for the `enhancement` heuristic branch (line 569). -/
def enhancementKws : List String :=
  ["melhorado", "enhanced", "otimizado", "upgraded", "melhoria", "improvement",
   "redução", "reduction"]

/-- Keyword set for the `bugfix` heuristic branch (line 574). -/
def bugfixKws : List String := ["corrigido", "fixed", "bug", "erro"]

/-- Keyword set for the `performance` heuristic branch (line 579). -/
def performanceKws : List String :=
  ["performance", "velocidade", "speed", "tempo", "redução", "reduction",
   "carregamento", "loading", "otimização", "optimization"]

/-- Keyword set for the `security` heuristic branch (line 584). -/
def securityKws : List String := ["segurança", "security", "vulnerabilidade"]

/-- Keyword set for the `known_issue` heuristic branch (line 589). -/
def knownIssueKws : List String := ["problema", "issue", "conhecido"]

/-- Keyword set for the `deprecated` heuristic branch (line 594). -/
def deprecatedKws : List String := ["deprecated", "obsoleto", "removido"]

/-- Keyword set for the `resource` heuristic branch (line 599). -/
def resourceKws : List String := ["recurso", "resource", "manual", "documentação"]

/-- Model of `lowerLine.includes(k₁) || lowerLine.includes(k₂) || ...` over a keyword
set. -/
def kwAny (kws : List String) (lower : JStr) : Bool :=
  kws.any fun k => containsSub k.data lower

/-- Strip a matched marker: `trimmedLine.replace(/^\[(t₁|t₂|...)\]\s*/i, '').trim()`
for the alternative `t` that matched; dropping the `[t]` prefix and then
trimming is equivalent to the regex's `\s*` consumption followed by `trim`. -/
def stripMarker (t : String) (line : JStr) : JStr :=
  trimStr (line.drop (t.length + 2))

/-- Classification of one non-blank (already trimmed) line, abstracted
over its lowercased form `lower` (the `lowerLine` / `lowerTrimmedLine`
variable of the code): the explicit marker branches of lines 539–563 in
order, then the keyword branches of lines 564–610, then the `feature`
default. -/
def classifyLower (line lower : JStr) : Sec :=
  match findTag featureTags lower with
  | some t => ⟨"feature", stripMarker t line⟩
  | none =>
  match findTag bugfixTags lower with
  | some t => ⟨"bugfix", stripMarker t line⟩
  | none =>
  match findTag performanceTags lower with
  | some t => ⟨"performance", stripMarker t line⟩
  | none =>
  match findTag securityTags lower with
  | some t => ⟨"security", stripMarker t line⟩
  | none =>
  match findTag resourceTags lower with
  | some t => ⟨"resource", stripMarker t line⟩
  | none =>
  if kwAny featureKws lower then ⟨"feature", line⟩
  else if kwAny enhancementKws lower then ⟨"enhancement", line⟩
  else if kwAny bugfixKws lower then ⟨"bugfix", line⟩
  else if kwAny performanceKws lower then ⟨"performance", line⟩
  else if kwAny securityKws lower then ⟨"security", line⟩
  else if kwAny knownIssueKws lower then ⟨"known_issue", line⟩
  else if kwAny deprecatedKws lower then ⟨"deprecated", line⟩
  else if kwAny resourceKws lower then ⟨"resource", line⟩
  else ⟨"feature", line⟩

/-- Classification of one non-blank (already trimmed) line (lines 532–610):
the branches of `classifyLower`, evaluated on the line's lowercased form. -/
def classifyLine (line : JStr) : Sec :=
  classifyLower line (toLowerStr line)

/-- The classifier `parseMarkdownContent`: input validation (`!content || typeof content
!== 'string'` returns `[]`), split on newlines, skip blank lines, classify
each remaining line. -/
def parseMarkdownContent (v : JSVal) : List Sec :=
  match v with
  | .str s =>
    if s = [] then []
    else
      (s.splitOn '\n').filterMap fun l =>
        if trimStr l = [] then none else some (classifyLine (trimStr l))
  | _ => []

/-! ## Document assembler (`generateWordDocument` /
`createStyledContentList`, `wordService.js` lines 291–354 and 445–493) -/

/-- An item handed to `createStyledContentList`; its `content` may be
missing or non-string (the defensive check of line 465). -/
structure Item where
  type : String
  content : JSVal
  deriving DecidableEq, Repr

/-- A classified `Sec` viewed as a (necessarily valid) content-list item. -/
def Sec.toItem (s : Sec) : Item := ⟨s.type, .str s.content⟩

/-- The character class kept by the sanitization regex of line 483:
`[\w\s\-\.áàâãéèêíìîóòôõúùûçÁÀÂÃÉÈÊÍÌÎÓÒÔÕÚÙÛÇ,;:!?()%]`. -/
def allowedChar (c : Char) : Bool :=
  ('a' ≤ c && c ≤ 'z') || ('A' ≤ c && c ≤ 'Z') || ('0' ≤ c && c ≤ '9') || c = '_'
  || jsWhitespace c
  || "-.áàâãéèêíìîóòôõúùûçÁÀÂÃÉÈÊÍÌÎÓÒÔÕÚÙÛÇ,;:!?()%".data.contains c

/-- Per-line sanitization of lines 482–484: strip every character outside
the allowed class, then `trim`. -/
def sanitize (l : JStr) : JStr := trimStr (l.filter allowedChar)

/-- The paragraphs emitted into the document body, abstracted to the four
observably distinct shapes the assembler produces. -/
inductive Block where
  /-- A section heading paragraph (`style: 'SectionHeading'`). -/
  | heading (title : String)
  /-- A bulleted content paragraph carrying the sanitized text. -/
  | bullet (text : JStr)
  /-- The red `"• Invalid content"` paragraph of lines 467–478. -/
  | invalidPlaceholder
  /-- The `"... ✓"` paragraph returned for an empty item list (lines 447–460). -/
  | emptyMark
  deriving DecidableEq, Repr

/-- Rendering of a single item (lines 463–492): missing / non-string /
empty-string content (the `!item.content || typeof item.content !==
'string'` check, where the empty string is falsy) yields the invalid-content
placeholder; otherwise a bullet with the sanitized content. -/
def renderItem (it : Item) : Block :=
  match it.content with
  | .str s => if s = [] then .invalidPlaceholder else .bullet (sanitize s)
  | _ => .invalidPlaceholder

/-- Model of `createStyledContentList` (lines 445–493): the `"... ✓"` paragraph for
an empty list, otherwise one paragraph per item. -/
def createStyledContentList (items : List Item) : List Block :=
  if items = [] then [.emptyMark] else items.map renderItem

/-- The fixed display order and section titles of lines 291–354. -/
def displayOrder : List (String × String) :=
  [("feature", "Novas Funcionalidades"),
   ("bugfix", "Correções de Erros"),
   ("performance", "Melhorias de Desempenho"),
   ("enhancement", "Melhorias Gerais"),
   ("security", "Atualizações de Segurança"),
   ("resource", "Recursos Adicionais")]

/-- One category chunk of the document body: matches
`...(sections.filter(s => s.type === ty).length > 0 ? [heading, ...list] : [])`. -/
def sectionChunk (ty title : String) (items : List Item) : List Block :=
  if (items.filter fun it => it.type == ty).length > 0 then
    Block.heading title :: createStyledContentList (items.filter fun it => it.type == ty)
  else []

/-- The section region of the document body built by `generateWordDocument`
(lines 291–354): the six category chunks concatenated in the fixed order. -/
def assembleSections (items : List Item) : List Block :=
  sectionChunk "feature" "Novas Funcionalidades" items
  ++ sectionChunk "bugfix" "Correções de Erros" items
  ++ sectionChunk "performance" "Melhorias de Desempenho" items
  ++ sectionChunk "enhancement" "Melhorias Gerais" items
  ++ sectionChunk "security" "Atualizações de Segurança" items
  ++ sectionChunk "resource" "Recursos Adicionais" items

/-- The heading title carried by a block, when it is a heading. -/
def headingOf : Block → Option String
  | .heading t => some t
  | _ => none

/-- The sequence of section headings appearing in a block list. -/
def headings (bs : List Block) : List String :=
  bs.filterMap headingOf

/-! ## Resilient section processor (`processSection` /
`processAllSections`, OpenRouter section service) -/

/-- The configuration the section processor reads: the `process.env`
prompt variables, and the resolved retry parameters
(`parseInt(process.env.SECTION_MAX_RETRIES) || MAX_RETRIES`, etc.). -/
structure Env where
  vars : String → Option String
  maxRetries : Nat
  retryDelay : Nat

/-- JavaScript falsiness of an optional environment string: unset,
or set to the empty string. -/
def envFalsy (v : Option String) : Bool :=
  match v with
  | none => true
  | some s => s = ""

/-- The `sectionTypeMap` of `processSection` (lines 31–37). -/
def sectionTypeMap (sectionType : String) : Option String :=
  if sectionType = "funcionalidade" then some "FUNCIONALIDADE"
  else if sectionType = "bug" then some "BUG"
  else if sectionType = "performance" then some "PERFORMANCE"
  else if sectionType = "segurança" then some "SEGURANCA"
  else if sectionType = "recurso" then some "RECURSO"
  else none

/-- Key of the category's system prompt (`SECTION_${envKey}_SYSTEM`). -/
def sysKey (envKey : String) : String := "SECTION_" ++ envKey ++ "_SYSTEM"

/-- Key of the category's user prompt template (`SECTION_${envKey}_USER`). -/
def userKey (envKey : String) : String := "SECTION_" ++ envKey ++ "_USER"

/-- Placeholder substitution of lines 53–55:
`userPromptTemplate.replace('{TITLE}', title).replace('{CONTENT}', content)`
(first occurrence each, as in JavaScript). -/
def buildUserPrompt (tmpl title content : JStr) : JStr :=
  replaceFirst (replaceFirst tmpl "{TITLE}".data title) "{CONTENT}".data content

/-- Model of `sectionType.charAt(0).toUpperCase() + sectionType.slice(1)`. -/
def jsCapitalize : JStr → JStr
  | [] => []
  | c :: t => jsToUpperChar c :: t

/-- The deterministic fallback text of line 106:
`` `[${sectionType}] ${capitalized}\n${content}` ``. -/
def fallbackText (sectionType : String) (content : JStr) : JStr :=
  '[' :: sectionType.data ++ ']' :: ' ' :: jsCapitalize sectionType.data
    ++ '\n' :: content

/-- The observable outcome of one `processSection` call: the returned text,
the number of `RETRY_DELAY` waits performed, the number of external-call
attempts made, and whether the fallback branch produced the text. -/
structure ProcOutcome where
  text : JStr
  delays : Nat
  attemptsMade : Nat
  isFallback : Bool
  deriving DecidableEq, Repr

/-- The retry loop of lines 61–102.  `oracle i` is the settled result of
external-call attempt `i` (1-based): `some s` if the API promise won the
race with response text `s`, `none` if the attempt failed or timed out.
Returns the (trimmed) successful text if any attempt succeeds, together
with the number of inter-attempt delays and attempts consumed; a delay is
inserted after every failed attempt except the last (`attempt <
sectionMaxRetries`). -/
def attemptLoop (oracle : Nat → Option JStr) (attempt : Nat) :
    Nat → Option JStr × Nat × Nat
  | 0 => (none, 0, 0)
  | fuel + 1 =>
    match oracle attempt with
    | some s => (some (trimStr s), 0, 1)
    | none =>
      if fuel = 0 then (none, 0, 1)
      else
        let r := attemptLoop oracle (attempt + 1) fuel
        (r.1, r.2.1 + 1, r.2.2 + 1)

/-- Model of `processSection(sectionType, content, title)` (lines 29–107): section
type mapping, prompt lookup (throwing on missing configuration), the
bounded retry loop, and the deterministic fallback after exhaustion.
`Except.error` models a thrown error. -/
def processSection (env : Env) (oracle : Nat → Option JStr)
    (sectionType : String) (content title : JStr) : Except String ProcOutcome :=
  match sectionTypeMap sectionType with
  | none => .error ("Tipo de seção não suportado: " ++ sectionType)
  | some envKey =>
    let systemPrompt := env.vars (sysKey envKey)
    let userPromptTemplate := env.vars (userKey envKey)
    if envFalsy systemPrompt || envFalsy userPromptTemplate then
      .error ("Prompts para seção " ++ sectionType ++ " não configurados no .env")
    else
      let _userPrompt :=
        buildUserPrompt ((userPromptTemplate.getD "").data) title content
      match attemptLoop oracle 1 env.maxRetries with
      | (some t, d, a) => .ok ⟨t, d, a, false⟩
      | (none, d, a) => .ok ⟨fallbackText sectionType content, d, a, true⟩

/-- Does a (already trimmed) line begin with a bracket tag, i.e. match
`/^\s*\[[^\]]+\]\s*/`? -/
def hasLeadingBracketTag (l : JStr) : Bool :=
  match trimLeft l with
  | '[' :: r =>
    let inside := r.takeWhile fun c => c ≠ ']'
    decide (inside ≠ []) && (r.drop inside.length ≠ [])
  | _ => false

/-- Model of `line.replace(/^\s*\[[^\]]+\]\s*/i, '')` (line 133): strip one leading
bracket tag (with surrounding whitespace) if present, else the line
unchanged. -/
def stripLeadingTag (l : JStr) : JStr :=
  match trimLeft l with
  | '[' :: r =>
    let inside := r.takeWhile fun c => c ≠ ']'
    if inside = [] then l
    else
      match r.drop inside.length with
      | ']' :: after => trimLeft after
      | _ => l
  | _ => l

/-- Post-processing of one processed section (lines 127–135): split into
lines, trim, drop blanks, strip one leading bracket tag, trim, and
re-annotate with the section's own tag. -/
def annotateLines (ty : String) (processed : JStr) : List JStr :=
  (((processed.splitOn '\n').map trimStr).filter fun l => l ≠ []).map fun line =>
    '[' :: ty.data ++ ']' :: ' ' :: trimStr (stripLeadingTag line)

/-- One section accumulated by `extractSectionsFromContent`: the marker
type, the marker line's remainder, and the accumulated description lines. -/
structure CurSec where
  type : String
  content : JStr
  description : JStr
  deriving Repr

/-- The marker alternatives of the section-splitting regex
`/^\[(funcionalidade|bug|performance|segurança|recurso)\]\s*(.*)/i`. -/
def sectionMarkerTypes : List String :=
  ["funcionalidade", "bug", "performance", "segurança", "recurso"]

/-- Match the section-splitting regex against a trimmed line: the
lowercased matched type and the trimmed remainder of the line. -/
def matchSectionMarker (t : JStr) : Option (String × JStr) :=
  match sectionMarkerTypes.find? (fun ty =>
      (("[" ++ ty ++ "]").data).isPrefixOf (toLowerStr t)) with
  | some ty => some (ty, trimStr (t.drop (ty.length + 2)))
  | none => none

/-- Closing a pending section (lines 184–189 / 208–213): join the marker
line's remainder and the accumulated description with a newline when both
are non-empty (`[content, description].filter(Boolean).join(...)`). -/
def finishSec (c : CurSec) : Sec :=
  ⟨c.type,
   if c.content ≠ [] ∧ c.description ≠ [] then c.content ++ '\n' :: c.description
   else c.content ++ c.description⟩

/-- The line loop of `extractSectionsFromContent` (lines 175–213). -/
def extractGo : List JStr → Option CurSec → List Sec
  | [], none => []
  | [], some c => [finishSec c]
  | l :: ls, cur =>
    let t := trimStr l
    if t = [] then extractGo ls cur
    else
      match matchSectionMarker t with
      | some (ty, rest) =>
        (match cur with | some c => [finishSec c] | none => [])
          ++ extractGo ls (some ⟨ty, rest, []⟩)
      | none =>
        match cur with
        | none => extractGo ls none
        | some c =>
          extractGo ls (some ⟨c.type, c.content,
            if c.description = [] then t else c.description ++ '\n' :: t⟩)

/-- Model of `extractSectionsFromContent(content)` (lines 170–216). -/
def extractSectionsFromContent (content : JStr) : List Sec :=
  extractGo (content.splitOn '\n') none

/-- The per-section loop of `processAllSections` (lines 124–137): skip
sections with falsy type or content, call `processSection` on the rest
(numbering the external calls with `idx` so each gets its own attempt
oracle), and accumulate annotated lines. -/
def processSectionsGo (env : Env) (oracle : Nat → Nat → Option JStr)
    (title : JStr) : List Sec → Nat → Except String (List JStr × Nat)
  | [], idx => .ok ([], idx)
  | sec :: rest, idx =>
    if sec.type ≠ "" ∧ sec.content ≠ [] then
      match processSection env (oracle idx) sec.type sec.content title with
      | .error e => .error e
      | .ok out =>
        match processSectionsGo env oracle title rest (idx + 1) with
        | .error e => .error e
        | .ok (ls, idx') => .ok (annotateLines sec.type out.text ++ ls, idx')
    else processSectionsGo env oracle title rest idx

/-- Model of `processAllSections` (lines 114–163), up to the final
`results.join('\n')`: the returned value is the `results` array of
annotated lines (the code joins them with `'\n'` into one string).  A
thrown error is re-wrapped as in the `catch` block of lines 159–162. -/
def processAllSectionsResults (env : Env) (oracle : Nat → Nat → Option JStr)
    (title description : JStr) : Except String (List JStr) :=
  match processSectionsGo env oracle title
      (extractSectionsFromContent description) 0 with
  | .error e => .error ("Falha no processamento de seções: " ++ e)
  | .ok (results, idx) =>
    if results = [] then
      match processSection env (oracle idx) "funcionalidade" description title with
      | .error e => .error ("Falha no processamento de seções: " ++ e)
      | .ok out => .ok (annotateLines "funcionalidade" out.text)
    else .ok results

/-! ## Image fitter (`createHeaderWithLogo`, proportional scaling) -/

/-- JavaScript `Math.round` (half away from zero toward `+∞`), on exact
rational arithmetic. -/
def jsRound (q : ℚ) : ℤ := ⌊q + 1 / 2⌋

/-- The proportional-fit computation of `createHeaderWithLogo`:
`height = Math.round(h0 * (targetWidth / w0))`; if `height > maxHeight`,
`scale = maxHeight / height`, then `height = Math.round(height * scale)`
and `targetWidth = Math.round(targetWidth * scale)`.  Returns the final
`(width, height)` pair used for the image transformation. -/
def fitLogoDims (w0 h0 targetWidth maxHeight : ℤ) : ℤ × ℤ :=
  let height := jsRound ((h0 : ℚ) * ((targetWidth : ℚ) / (w0 : ℚ)))
  if height > maxHeight then
    let scale : ℚ := (maxHeight : ℚ) / (height : ℚ)
    (jsRound ((targetWidth : ℚ) * scale), jsRound ((height : ℚ) * scale))
  else
    (targetWidth, height)

/-! ## Helper definitions and lemmas: the classifier -/

/-- The explicit-marker test performed by the `startsWith` branch
conditions of lines 539–559, groups in source order: the first group with
a matching tag, together with the matching tag. -/
def findMarker (lower : JStr) : Option (String × String) :=
  match findTag featureTags lower with
  | some t => some ("feature", t)
  | none =>
  match findTag bugfixTags lower with
  | some t => some ("bugfix", t)
  | none =>
  match findTag performanceTags lower with
  | some t => some ("performance", t)
  | none =>
  match findTag securityTags lower with
  | some t => some ("security", t)
  | none =>
  match findTag resourceTags lower with
  | some t => some ("resource", t)
  | none => none

/-- If no marker group matches, each individual group's tag search fails. -/
theorem findMarker_eq_none {lower : JStr} (h : findMarker lower = none) :
    findTag featureTags lower = none ∧ findTag bugfixTags lower = none ∧
    findTag performanceTags lower = none ∧ findTag securityTags lower = none ∧
    findTag resourceTags lower = none := by
  simp only [findMarker] at h
  cases h1 : findTag featureTags lower with
  | some t => rw [h1] at h; exact absurd h (by simp)
  | none =>
  rw [h1] at h
  cases h2 : findTag bugfixTags lower with
  | some t => rw [h2] at h; exact absurd h (by simp)
  | none =>
  rw [h2] at h
  cases h3 : findTag performanceTags lower with
  | some t => rw [h3] at h; exact absurd h (by simp)
  | none =>
  rw [h3] at h
  cases h4 : findTag securityTags lower with
  | some t => rw [h4] at h; exact absurd h (by simp)
  | none =>
  rw [h4] at h
  cases h5 : findTag resourceTags lower with
  | some t => rw [h5] at h; exact absurd h (by simp)
  | none => exact ⟨rfl, rfl, rfl, rfl, rfl⟩

/-- The union of all keyword sets tested by the heuristic branches. -/
def allKeywords : List String :=
  featureKws ++ enhancementKws ++ bugfixKws ++ performanceKws ++ securityKws ++
  knownIssueKws ++ deprecatedKws ++ resourceKws

/-- Keyword search over a concatenation fails exactly when it fails on
both halves. -/
theorem kwAny_append_eq_false {a b : List String} {lower : JStr} :
    kwAny (a ++ b) lower = false ↔
      kwAny a lower = false ∧ kwAny b lower = false := by
  simp only [kwAny, List.any_append, Bool.or_eq_false_iff]

/-- The classifier emits exactly one entry per line whose trimmed form is
non-blank, and none for the blank ones. -/
theorem classify_length (ls : List JStr) :
    (ls.filterMap fun l =>
      if trimStr l = [] then none else some (classifyLine (trimStr l))).length =
    (ls.filter fun l => trimStr l ≠ []).length := by
  induction ls with
  | nil => rfl
  | cons l t ih =>
    by_cases h : trimStr l = [] <;>
      simp [List.filterMap_cons, List.filter_cons, h, ih]

/-! ## Helper lemmas: the retry loop -/

/-- If every attempt fails, the retry loop consumes all its attempts and
inserts a delay after each attempt but the last. -/
theorem attemptLoop_allFail (oracle : Nat → Option JStr) (h : ∀ i, oracle i = none) :
    ∀ fuel start : Nat, attemptLoop oracle start fuel = (none, fuel - 1, fuel) := by
  intro fuel
  induction fuel with
  | zero => intro start; rfl
  | succ n ih =>
    intro start
    simp only [attemptLoop, h start]
    cases n with
    | zero => simp
    | succ m => simp [ih (start + 1)]

/-- The retry loop makes at most `fuel` attempts, at least one when
`fuel` is positive, and always performs exactly one fewer delay than
attempts. -/
theorem attemptLoop_spec (oracle : Nat → Option JStr) :
    ∀ fuel start : Nat,
      (attemptLoop oracle start fuel).2.2 ≤ fuel ∧
      (attemptLoop oracle start fuel).2.1 = (attemptLoop oracle start fuel).2.2 - 1 ∧
      (0 < fuel → 1 ≤ (attemptLoop oracle start fuel).2.2) := by
  intro fuel
  induction fuel with
  | zero => intro start; refine ⟨Nat.le_refl 0, rfl, fun h => absurd h (by simp)⟩
  | succ n ih =>
    intro start
    simp only [attemptLoop]
    cases horacle : oracle start with
    | some s => simp
    | none =>
      cases n with
      | zero => simp
      | succ m =>
        have h' := ih (start + 1)
        simp only [Nat.succ_ne_zero, if_false]
        refine ⟨Nat.succ_le_succ h'.1, ?_, fun _ => Nat.le_add_left 1 _⟩
        have := h'.2.1
        have h1 := h'.2.2 (Nat.succ_pos m)
        omega

/-! ## Claim theorems: resilient generator -/

/-- **C1.** For every category with configured prompt templates and every
content string, if all `MAX_RETRIES` external-call attempts fail or time
out, `processSection` returns (does not throw) the deterministic fallback
string `"[<category>] <Capitalized category>\n<original content>"`, which
contains the original content verbatim and the category tag, and is never
empty. -/
theorem claim_C1 (env : Env) (oracle : Nat → Option JStr) (ty k : String)
    (content title : JStr)
    (hmap : sectionTypeMap ty = some k)
    (hsys : envFalsy (env.vars (sysKey k)) = false)
    (huser : envFalsy (env.vars (userKey k)) = false)
    (hfail : ∀ i, oracle i = none) :
    processSection env oracle ty content title =
      .ok ⟨fallbackText ty content, env.maxRetries - 1, env.maxRetries, true⟩ ∧
    fallbackText ty content ≠ [] ∧
    ('[' :: ty.data ++ [']']) <+: fallbackText ty content ∧
    content <:+ fallbackText ty content := by
  refine ⟨?_, by simp [fallbackText], ?_, ?_⟩
  · simp [processSection, hmap, hsys, huser, attemptLoop_allFail oracle hfail]
  · exact ⟨' ' :: jsCapitalize ty.data ++ '\n' :: content, by simp [fallbackText]⟩
  · exact ⟨'[' :: ty.data ++ ']' :: ' ' :: jsCapitalize ty.data ++ ['\n'],
      by simp [fallbackText]⟩

/-- Witness for C1 at a concrete configured environment, the `bug`
category, and an always-failing external service. -/
theorem claim_C1_witness :
    processSection ⟨fun _ => some "prompt", 3, 2000⟩ (fun _ => none) "bug"
        "conteúdo original".data "t".data =
      .ok ⟨fallbackText "bug" "conteúdo original".data, 2, 3, true⟩ ∧
    "conteúdo original".data <:+ fallbackText "bug" "conteúdo original".data := by
  have h := claim_C1 ⟨fun _ => some "prompt", 3, 2000⟩ (fun _ => none) "bug" "BUG"
    "conteúdo original".data "t".data (by decide) (by decide) (by decide)
    (fun i => rfl)
  exact ⟨h.1, h.2.2.2⟩

/-- **C4.** `processSection` attempts the external call at most
`MAX_RETRIES` times, waiting exactly one `RETRY_DELAY` between consecutive
failed attempts and never after the last attempt (the number of delays is
always one less than the number of attempts); if the external service
fails on attempts 1 and 2 and succeeds on attempt 3 (with `MAX_RETRIES =
3`), it returns success carrying attempt 3's trimmed response text after
exactly two delays — a total added delay of `2 × RETRY_DELAY`
milliseconds. -/
theorem claim_C4 (env : Env) (oracle : Nat → Option JStr) (ty k : String)
    (content title : JStr) (s : JStr)
    (hmap : sectionTypeMap ty = some k)
    (hsys : envFalsy (env.vars (sysKey k)) = false)
    (huser : envFalsy (env.vars (userKey k)) = false) :
    (∀ oracle' : Nat → Option JStr, ∃ out : ProcOutcome,
        processSection env oracle' ty content title = .ok out ∧
        out.attemptsMade ≤ env.maxRetries ∧
        out.delays = out.attemptsMade - 1) ∧
    (env.maxRetries = 3 → oracle 1 = none → oracle 2 = none →
        oracle 3 = some s →
        processSection env oracle ty content title =
          .ok ⟨trimStr s, 2, 3, false⟩) := by
  constructor
  · intro oracle'
    obtain ⟨hle, hd, -⟩ := attemptLoop_spec oracle' env.maxRetries 1
    rcases hres : attemptLoop oracle' 1 env.maxRetries with ⟨r, d, a⟩
    rw [hres] at hle hd
    simp only at hle hd
    cases r with
    | some t =>
      refine ⟨⟨t, d, a, false⟩, ?_, hle, hd⟩
      simp [processSection, hmap, hsys, huser, hres]
    | none =>
      refine ⟨⟨fallbackText ty content, d, a, true⟩, ?_, hle, hd⟩
      simp [processSection, hmap, hsys, huser, hres]
  · intro hmr h1 h2 h3
    simp [processSection, hmap, hsys, huser, hmr, attemptLoop, h1, h2, h3]

/-- Witness for C4: concrete configured environment; the general part at
an always-failing oracle, the scenario part at an oracle failing twice
then succeeding. -/
theorem claim_C4_witness :
    (∃ out : ProcOutcome,
        processSection ⟨fun _ => some "prompt", 3, 2000⟩ (fun _ => none) "bug"
          "c".data "t".data = .ok out ∧
        out.attemptsMade ≤ 3 ∧ out.delays = out.attemptsMade - 1) ∧
    processSection ⟨fun _ => some "prompt", 3, 2000⟩
        (fun i => if i = 3 then some " ok ".data else none) "bug"
        "c".data "t".data =
      .ok ⟨trimStr " ok ".data, 2, 3, false⟩ := by
  have h := claim_C4 ⟨fun _ => some "prompt", 3, 2000⟩
    (fun i => if i = 3 then some " ok ".data else none) "bug" "BUG"
    "c".data "t".data " ok ".data (by decide) (by decide) (by decide)
  exact ⟨h.1 (fun _ => none), h.2 rfl rfl rfl rfl⟩

/-- **C5.** For every requested category, if the category has no template
mapping or its category-specific system or user prompt template is absent
(falsy) in configuration, `processSection` reports a fatal configuration
error synchronously (a thrown error, modelled as `Except.error`); and this
is the only error class that escapes: with a valid configuration the call
returns `Except.ok` for every behavior of the external service, so
transient external-call failures never surface to the caller. -/
theorem claim_C5 (env : Env) (oracle : Nat → Option JStr) (ty : String)
    (content title : JStr) :
    (sectionTypeMap ty = none →
        processSection env oracle ty content title =
          .error ("Tipo de seção não suportado: " ++ ty)) ∧
    (∀ k, sectionTypeMap ty = some k →
        (envFalsy (env.vars (sysKey k)) = true ∨
         envFalsy (env.vars (userKey k)) = true) →
        processSection env oracle ty content title =
          .error ("Prompts para seção " ++ ty ++ " não configurados no .env")) ∧
    (∀ k, sectionTypeMap ty = some k →
        envFalsy (env.vars (sysKey k)) = false →
        envFalsy (env.vars (userKey k)) = false →
        ∀ oracle' : Nat → Option JStr, ∃ out : ProcOutcome,
          processSection env oracle' ty content title = .ok out) := by
  refine ⟨?_, ?_, ?_⟩
  · intro hnone
    simp only [processSection, hnone]
  · intro k hmap hfalsy
    rcases hfalsy with hf | hf <;>
      simp only [processSection, hmap, hf, Bool.true_or, Bool.or_true, if_true]
  · intro k hmap hsys huser oracle'
    rcases hres : attemptLoop oracle' 1 env.maxRetries with ⟨r, d, a⟩
    cases r with
    | some t =>
      exact ⟨⟨t, d, a, false⟩, by
        simp [processSection, hmap, hsys, huser, hres]⟩
    | none =>
      exact ⟨⟨fallbackText ty content, d, a, true⟩, by
        simp [processSection, hmap, hsys, huser, hres]⟩

/-- Witness for C5: unsupported category `xyz`, unconfigured `bug`
prompts, and a configured `bug` environment with a failing service. -/
theorem claim_C5_witness :
    processSection ⟨fun _ => some "prompt", 3, 2000⟩ (fun _ => none) "xyz"
        "c".data "t".data = .error "Tipo de seção não suportado: xyz" ∧
    processSection ⟨fun _ => none, 3, 2000⟩ (fun _ => none) "bug"
        "c".data "t".data =
      .error "Prompts para seção bug não configurados no .env" ∧
    ∃ out : ProcOutcome,
      processSection ⟨fun _ => some "prompt", 3, 2000⟩ (fun _ => none) "bug"
        "c".data "t".data = .ok out := by
  refine ⟨?_, ?_, ?_⟩
  · exact (claim_C5 ⟨fun _ => some "prompt", 3, 2000⟩ (fun _ => none) "xyz"
      "c".data "t".data).1 (by decide)
  · exact (claim_C5 ⟨fun _ => none, 3, 2000⟩ (fun _ => none) "bug"
      "c".data "t".data).2.1 "BUG" (by decide) (Or.inl (by decide))
  · exact (claim_C5 ⟨fun _ => some "prompt", 3, 2000⟩ (fun _ => none) "bug"
      "c".data "t".data).2.2 "BUG" (by decide) (by decide) (by decide)
      (fun _ => none)

/-! ## Claim theorems: classifier -/

/-- **C2.** For every non-blank input line, the classifier tests explicit
bracketed markers before any keyword heuristic — whenever a marker group
matches, the line is classified by that group with the matched marker
prefix stripped from the stored content, regardless of any keywords the
line contains; in particular the line `"[bug] nova função"` is classified
as `bugfix` (not `feature`) with content `"nova função"`, despite
containing the feature keyword `"nova"`. -/
theorem claim_C2 :
    parseMarkdownContent (.str "[bug] nova função".data) =
      [⟨"bugfix", "nova função".data⟩] ∧
    ∀ (line : JStr) (c t : String),
      findMarker (toLowerStr line) = some (c, t) →
      classifyLine line = ⟨c, stripMarker t line⟩ := by
  constructor
  · decide
  · intro line c t h
    simp only [findMarker] at h
    simp only [classifyLine, classifyLower]
    cases h1 : findTag featureTags (toLowerStr line) with
    | some t' =>
      rw [h1] at h
      simp only [Option.some.injEq, Prod.mk.injEq] at h
      obtain ⟨rfl, rfl⟩ := h
      rfl
    | none =>
    rw [h1] at h
    cases h2 : findTag bugfixTags (toLowerStr line) with
    | some t' =>
      rw [h2] at h
      simp only [Option.some.injEq, Prod.mk.injEq] at h
      obtain ⟨rfl, rfl⟩ := h
      rfl
    | none =>
    rw [h2] at h
    cases h3 : findTag performanceTags (toLowerStr line) with
    | some t' =>
      rw [h3] at h
      simp only [Option.some.injEq, Prod.mk.injEq] at h
      obtain ⟨rfl, rfl⟩ := h
      rfl
    | none =>
    rw [h3] at h
    cases h4 : findTag securityTags (toLowerStr line) with
    | some t' =>
      rw [h4] at h
      simp only [Option.some.injEq, Prod.mk.injEq] at h
      obtain ⟨rfl, rfl⟩ := h
      rfl
    | none =>
    rw [h4] at h
    cases h5 : findTag resourceTags (toLowerStr line) with
    | some t' =>
      rw [h5] at h
      simp only [Option.some.injEq, Prod.mk.injEq] at h
      obtain ⟨rfl, rfl⟩ := h
      rfl
    | none => rw [h5] at h; exact absurd h (by simp)

/-- Witness for C2's quantified part, at the line of the claim's example. -/
theorem claim_C2_witness :
    classifyLine "[bug] nova função".data =
      ⟨"bugfix", stripMarker "bug" "[bug] nova função".data⟩ :=
  claim_C2.2 "[bug] nova função".data "bugfix" "bug" (by decide)

/-- **C3.** The classifier never fails: for null, non-string, or empty
input it returns the empty sequence; for every other input string it
produces exactly one entry for every line whose trimmed form is non-blank
and zero entries for blank/whitespace-only lines; and a line matching no
explicit marker and no keyword defaults to category `feature` (with the
line itself as content). -/
theorem claim_C3 :
    parseMarkdownContent .null = [] ∧
    parseMarkdownContent .other = [] ∧
    parseMarkdownContent (.str []) = [] ∧
    (∀ s : JStr,
      (parseMarkdownContent (.str s)).length =
        ((s.splitOn '\n').filter fun l => trimStr l ≠ []).length) ∧
    (∀ l : JStr, findMarker (toLowerStr l) = none →
      kwAny allKeywords (toLowerStr l) = false →
      classifyLine l = ⟨"feature", l⟩) := by
  refine ⟨rfl, rfl, rfl, ?_, ?_⟩
  · intro s
    by_cases hs : s = []
    · subst hs; rfl
    · simp only [parseMarkdownContent, if_neg hs]
      exact classify_length (s.splitOn '\n')
  · intro l hm hk
    obtain ⟨h1, h2, h3, h4, h5⟩ := findMarker_eq_none hm
    rw [allKeywords] at hk
    obtain ⟨hk, k8⟩ := kwAny_append_eq_false.mp hk
    obtain ⟨hk, k7⟩ := kwAny_append_eq_false.mp hk
    obtain ⟨hk, k6⟩ := kwAny_append_eq_false.mp hk
    obtain ⟨hk, k5⟩ := kwAny_append_eq_false.mp hk
    obtain ⟨hk, k4⟩ := kwAny_append_eq_false.mp hk
    obtain ⟨hk, k3⟩ := kwAny_append_eq_false.mp hk
    obtain ⟨k1, k2⟩ := kwAny_append_eq_false.mp hk
    simp only [classifyLine, classifyLower, h1, h2, h3, h4, h5]
    simp only [k1, k2, k3, k4, k5, k6, k7, k8]
    simp

/-- Witness for C3's quantified parts: the line count on a concrete
three-line input with one blank line, and the `feature` default on a
marker-free, keyword-free line. -/
theorem claim_C3_witness :
    (parseMarkdownContent (.str "abc def\n\nghi".data)).length =
      ((("abc def\n\nghi".data : JStr).splitOn '\n').filter
        fun l => trimStr l ≠ []).length ∧
    classifyLine "abc def".data = ⟨"feature", "abc def".data⟩ :=
  ⟨claim_C3.2.2.2.1 "abc def\n\nghi".data,
   claim_C3.2.2.2.2 "abc def".data (by decide) (by decide)⟩

/-! ## Helper lemmas: the assembler -/

/-- Rendering one item never produces a heading block. -/
theorem headingOf_renderItem (it : Item) : headingOf (renderItem it) = none := by
  unfold renderItem
  cases it.content with
  | null => rfl
  | other => rfl
  | str s => by_cases h : s = [] <;> simp [h, headingOf]

/-- Headings distribute over block-list concatenation. -/
theorem headings_append (a b : List Block) :
    headings (a ++ b) = headings a ++ headings b := by
  simp [headings, List.filterMap_append]

/-- A rendered content list contains no heading blocks. -/
theorem headings_createStyledContentList (items : List Item) :
    headings (createStyledContentList items) = [] := by
  unfold createStyledContentList
  by_cases h : items = []
  · simp [h, headings, headingOf]
  · rw [if_neg h]
    simp only [headings, List.filterMap_map]
    exact List.filterMap_eq_nil_iff.mpr fun a _ => headingOf_renderItem a

/-- A filtered list is non-empty exactly when some element satisfies the
test. -/
theorem filter_length_pos_iff_any {α : Type} (p : α → Bool) (l : List α) :
    (l.filter p).length > 0 ↔ l.any p = true := by
  induction l with
  | nil => simp
  | cons a t ih => by_cases h : p a <;> simp [List.filter_cons, h, ih]

/-- The headings contributed by one category chunk. -/
theorem headings_sectionChunk (ty title : String) (items : List Item) :
    headings (sectionChunk ty title items) =
      if items.any (fun it => it.type == ty) then [title] else [] := by
  unfold sectionChunk
  by_cases h : (items.filter fun it => it.type == ty).length > 0
  · rw [if_pos h, if_pos ((filter_length_pos_iff_any _ _).mp h)]
    show headings (Block.heading title :: _) = [title]
    rw [show ∀ bs : List Block, headings (Block.heading title :: bs) =
          title :: headings bs from fun bs => by
        simp [headings, List.filterMap_cons, headingOf],
      headings_createStyledContentList (items.filter fun it => it.type == ty)]
  · rw [if_neg h,
      if_neg (fun hc => h ((filter_length_pos_iff_any _ _).mpr hc))]
    rfl

/-- The six category chunks, generalized over a list of
`(category, title)` pairs, for induction. -/
def assembleOver (pairs : List (String × String)) (items : List Item) :
    List Block :=
  match pairs with
  | [] => []
  | p :: rest => sectionChunk p.1 p.2 items ++ assembleOver rest items

/-- The section region really is the six chunks of `displayOrder`. -/
theorem assembleSections_eq_over (items : List Item) :
    assembleSections items = assembleOver displayOrder items := by
  simp [assembleSections, assembleOver, displayOrder, List.append_assoc]

/-- The headings of the generalized assembly, in pair order. -/
theorem assembleOver_headings (pairs : List (String × String))
    (items : List Item) :
    headings (assembleOver pairs items) =
      (pairs.filter fun p => items.any fun it => it.type == p.1).map Prod.snd := by
  induction pairs with
  | nil => rfl
  | cons p rest ih =>
    simp only [assembleOver, headings_append, headings_sectionChunk, ih,
      List.filter_cons]
    by_cases h : items.any (fun it => it.type == p.1) <;> simp [h]

/-- Permutation of the item list leaves every `any` test unchanged. -/
theorem any_of_perm {items items' : List Item} (hperm : items.Perm items')
    (q : Item → Bool) : items.any q = items'.any q := by
  cases hb : items'.any q with
  | true =>
    rw [List.any_eq_true] at hb ⊢
    obtain ⟨x, hx, hq⟩ := hb
    exact ⟨x, hperm.mem_iff.mpr hx, hq⟩
  | false =>
    cases ha : items.any q with
    | false => rfl
    | true =>
      exfalso
      rw [List.any_eq_true] at ha
      obtain ⟨x, hx, hq⟩ := ha
      have hb' : items'.any q = true :=
        List.any_eq_true.mpr ⟨x, hperm.mem_iff.mp hx, hq⟩
      rw [hb] at hb'
      exact Bool.false_ne_true hb'

/-- Dropping items of categories outside a pair list does not change the
generalized assembly over that pair list. -/
theorem assembleOver_filter_keep (pairs : List (String × String))
    (items : List Item)
    (hp : ∀ p ∈ pairs, p.1 ≠ "known_issue" ∧ p.1 ≠ "deprecated") :
    assembleOver pairs (items.filter fun it =>
      !(it.type == "known_issue" || it.type == "deprecated")) =
    assembleOver pairs items := by
  induction pairs with
  | nil => rfl
  | cons p rest ih =>
    have hfil :
        ((items.filter fun it =>
            !(it.type == "known_issue" || it.type == "deprecated")).filter
          fun it => it.type == p.1) =
        items.filter fun it => it.type == p.1 := by
      rw [List.filter_filter]
      refine List.filter_congr fun a _ => ?_
      cases hty : a.type == p.1 with
      | false => simp
      | true =>
        have : a.type = p.1 := by
          have := hty
          simpa [beq_iff_eq] using this
        obtain ⟨hk, hd⟩ := hp p (List.mem_cons_self p rest)
        simp [this, beq_eq_false_iff_ne, hk, hd]
    simp only [assembleOver, sectionChunk, hfil,
      ih fun q hq => hp q (List.mem_cons_of_mem p hq)]

/-! ## Claim theorems: assembler -/

/-- **C6.** For every sequence of classified entries, the assembler
renders category sections in the fixed display order `feature, bugfix,
performance, enhancement, security, resource` regardless of the order in
which entries arrive (the heading sequence is the fixed order restricted
to inhabited categories, and is invariant under permutation of the
entries); a category with zero entries produces no section at all; and
`known_issue` / `deprecated` entries are never rendered in any section
(removing them changes nothing). -/
theorem claim_C6 :
    (∀ items : List Item,
      headings (assembleSections items) =
        (displayOrder.filter fun p =>
          items.any fun it => it.type == p.1).map Prod.snd) ∧
    (∀ items items' : List Item, items.Perm items' →
      headings (assembleSections items) = headings (assembleSections items')) ∧
    (∀ items : List Item,
      assembleSections (items.filter fun it =>
        !(it.type == "known_issue" || it.type == "deprecated")) =
      assembleSections items) ∧
    assembleSections [] = [] := by
  have h1 : ∀ items : List Item,
      headings (assembleSections items) =
        (displayOrder.filter fun p =>
          items.any fun it => it.type == p.1).map Prod.snd := by
    intro items
    rw [assembleSections_eq_over, assembleOver_headings]
  refine ⟨h1, ?_, ?_, by decide⟩
  · intro items items' hperm
    rw [h1, h1]
    congr 1
    exact List.filter_congr fun p _ => any_of_perm hperm _
  · intro items
    rw [assembleSections_eq_over, assembleSections_eq_over]
    exact assembleOver_filter_keep displayOrder items (by decide)

/-- Witness for C6's permutation part, on two concrete entry lists that
arrive in opposite orders. -/
theorem claim_C6_witness :
    headings (assembleSections
      [⟨"bugfix", .str "a".data⟩, ⟨"feature", .str "b".data⟩]) =
    headings (assembleSections
      [⟨"feature", .str "b".data⟩, ⟨"bugfix", .str "a".data⟩]) :=
  claim_C6.2.1 _ _ (List.Perm.swap _ _ _)

/-- **C8 (counterexample).** The claim states that an item whose content
becomes empty after sanitization renders a visibly-marked placeholder
bullet; on the code, the item `{type: 'feature', content: '@@@'}` (whose
content sanitizes to the empty string) instead renders an ordinary bullet
paragraph with empty text, which is not the marked `"• Invalid content"`
placeholder. -/
theorem claim_C8_counterexample :
    createStyledContentList [⟨"feature", .str "@@@".data⟩] =
      [Block.bullet []] ∧
    Block.bullet [] ≠ Block.invalidPlaceholder := by
  constructor
  · decide
  · decide

/-- **C8 (amended).** Every item given to the assembler's content-list
builder yields exactly one paragraph (nothing is silently dropped and
assembly never aborts); a structurally invalid item — missing, non-string,
or empty-string content — renders the visibly-marked `"• Invalid
content"` placeholder; an item whose non-empty content sanitizes to the
empty string renders an (empty) ordinary bullet, not the marked
placeholder. -/
theorem claim_C8 (items : List Item) (it : Item) (ty : String) (s : JStr) :
    (items ≠ [] → (createStyledContentList items).length = items.length) ∧
    ((it.content = .null ∨ it.content = .other ∨ it.content = .str []) →
      renderItem it = .invalidPlaceholder) ∧
    (s ≠ [] → renderItem ⟨ty, .str s⟩ = .bullet (sanitize s)) := by
  refine ⟨?_, ?_, ?_⟩
  · intro h
    simp [createStyledContentList, h]
  · intro h
    rcases h with h | h | h <;> simp [renderItem, h]
  · intro h
    simp [renderItem, h]

/-- Witness for C8's amended statement at a one-item list, a null-content
item and the `'@@@'` content. -/
theorem claim_C8_witness :
    (createStyledContentList [⟨"feature", .str "@@@".data⟩]).length = 1 ∧
    renderItem ⟨"feature", .null⟩ = .invalidPlaceholder ∧
    renderItem ⟨"feature", .str "@@@".data⟩ = .bullet (sanitize "@@@".data) := by
  have h := claim_C8 [⟨"feature", .str "@@@".data⟩] ⟨"feature", .null⟩
    "feature" "@@@".data
  exact ⟨h.1 (by decide), h.2.1 (Or.inl rfl), h.2.2 (by decide)⟩

/-- **C9 (counterexample).** The claim states that sanitization is the
identity on every line consisting only of allowed characters (which
include whitespace); the line `" a "` consists only of allowed characters,
yet sanitization returns `"a"`, because the code trims the line after
filtering. -/
theorem claim_C9_counterexample :
    (∀ c ∈ (" a ".data : JStr), allowedChar c = true) ∧
    sanitize " a ".data ≠ " a ".data := by
  constructor
  · decide
  · decide

/-- **C9 (amended).** On a line consisting only of characters in the
allowed class, the character filter removes nothing, so sanitization
returns the line trimmed; in particular it is the identity exactly on
those allowed lines that carry no leading or trailing whitespace. -/
theorem claim_C9 (l : JStr) (h : ∀ c ∈ l, allowedChar c = true) :
    sanitize l = trimStr l ∧ (trimStr l = l → sanitize l = l) := by
  have hfil : l.filter allowedChar = l := List.filter_eq_self.mpr h
  constructor
  · rw [sanitize, hfil]
  · intro ht
    rw [sanitize, hfil, ht]

/-- Witness for C9's amended statement at the allowed line `" a "`. -/
theorem claim_C9_witness :
    sanitize " a ".data = trimStr " a ".data :=
  (claim_C9 " a ".data (by decide)).1

/-! ## Helper lemmas: rounding -/

/-- JavaScript rounding is at most half above its argument. -/
theorem jsRound_le (q : ℚ) : (jsRound q : ℚ) ≤ q + 1 / 2 :=
  Int.floor_le _

/-- JavaScript rounding is strictly less than half below its argument. -/
theorem lt_jsRound (q : ℚ) : q - 1 / 2 < (jsRound q : ℚ) := by
  have h := Int.lt_floor_add_one (q + 1 / 2)
  unfold jsRound
  push_cast at h ⊢
  linarith

/-- Rounding an integer returns it. -/
theorem jsRound_intCast (n : ℤ) : jsRound (n : ℚ) = n := by
  unfold jsRound
  rw [add_comm, Int.floor_add_int]
  norm_num

/-- JavaScript rounding is monotone. -/
theorem jsRound_mono {a b : ℚ} (h : a ≤ b) : jsRound a ≤ jsRound b :=
  Int.floor_mono (by linarith)

/-! ## Claim theorems: image fitter -/

/-- **C7.** For every source image with positive intrinsic dimensions
`(w0, h0)` and positive nominal `targetWidth` and `maxHeight`, the image
fitter computes `height = round(h0 * targetWidth / w0)` and, when `height
> maxHeight`, rescales both dimensions by `scale = maxHeight / height`
with rounding performed last; consequently the fitted height never exceeds
`maxHeight`, the fitted width never grows relative to the nominal target
width, and the aspect ratio is preserved within a ±1 px rounding tolerance
(one of the two fitted dimensions is within 1 px of the exact-aspect match
of the other); the claim's example — a 4000×2000 source with
`targetWidth = 120`, `maxHeight = 100` — yields `(120, 60)`, whose height
is at most 100. -/
theorem claim_C7 (w0 h0 tw mh : ℤ) (hw0 : 0 < w0) (hh0 : 0 < h0)
    (htw : 0 < tw) (hmh : 0 < mh) :
    ((fitLogoDims w0 h0 tw mh).2 ≤ mh ∧
     (fitLogoDims w0 h0 tw mh).1 ≤ tw ∧
     (|((fitLogoDims w0 h0 tw mh).2 : ℚ) -
        ((fitLogoDims w0 h0 tw mh).1 : ℚ) * (h0 : ℚ) / (w0 : ℚ)| ≤ 1 ∨
      |((fitLogoDims w0 h0 tw mh).1 : ℚ) -
        ((fitLogoDims w0 h0 tw mh).2 : ℚ) * (w0 : ℚ) / (h0 : ℚ)| ≤ 1)) ∧
    fitLogoDims 4000 2000 120 100 = (120, 60) := by
  have hw0Q : (0 : ℚ) < (w0 : ℚ) := by exact_mod_cast hw0
  have hh0Q : (0 : ℚ) < (h0 : ℚ) := by exact_mod_cast hh0
  have htwQ : (0 : ℚ) < (tw : ℚ) := by exact_mod_cast htw
  have hmhQ : (0 : ℚ) < (mh : ℚ) := by exact_mod_cast hmh
  constructor
  · simp only [fitLogoDims]
    have hXmul : ((h0 : ℚ) * ((tw : ℚ) / (w0 : ℚ))) * (w0 : ℚ) =
        (h0 : ℚ) * (tw : ℚ) := by field_simp
    generalize hXeq : ((h0 : ℚ) * ((tw : ℚ) / (w0 : ℚ))) = X
    rw [hXeq] at hXmul
    generalize hheq : jsRound X = h
    have hb1 : (h : ℚ) ≤ X + 1 / 2 := by rw [← hheq]; exact jsRound_le X
    have hb2 : X - 1 / 2 < (h : ℚ) := by rw [← hheq]; exact lt_jsRound X
    by_cases hgt : h > mh
    · rw [if_pos hgt]
      have hhpos : (0 : ℤ) < h := lt_trans hmh hgt
      have hhQ : (0 : ℚ) < (h : ℚ) := by exact_mod_cast hhpos
      have hgtQ : (mh : ℚ) < (h : ℚ) := by exact_mod_cast hgt
      have hfh : jsRound ((h : ℚ) * ((mh : ℚ) / (h : ℚ))) = mh := by
        have hcancel : (h : ℚ) * ((mh : ℚ) / (h : ℚ)) = (mh : ℚ) := by
          field_simp
        rw [hcancel, jsRound_intCast]
      rw [hfh]
      have hVh : ((tw : ℚ) * ((mh : ℚ) / (h : ℚ))) * (h : ℚ) =
          (tw : ℚ) * (mh : ℚ) := by field_simp
      generalize hVeq : (tw : ℚ) * ((mh : ℚ) / (h : ℚ)) = V
      rw [hVeq] at hVh
      generalize hfweq : jsRound V = fw
      have hfwb1 : (fw : ℚ) ≤ V + 1 / 2 := by rw [← hfweq]; exact jsRound_le V
      have hfwb2 : V - 1 / 2 < (fw : ℚ) := by rw [← hfweq]; exact lt_jsRound V
      refine ⟨le_refl mh, ?_, ?_⟩
      · show fw ≤ tw
        have hVtw : V * (h : ℚ) ≤ (tw : ℚ) * (h : ℚ) := by
          rw [hVh]
          exact mul_le_mul_of_nonneg_left (le_of_lt hgtQ) (le_of_lt htwQ)
        have hVle : V ≤ (tw : ℚ) := le_of_mul_le_mul_right hVtw hhQ
        rw [← hfweq, ← jsRound_intCast tw]
        exact jsRound_mono hVle
      · have p3 : V * (h : ℚ) * (h0 : ℚ) = (tw : ℚ) * (mh : ℚ) * (h0 : ℚ) := by
          rw [hVh]
        have p4 : X * (w0 : ℚ) * (mh : ℚ) = (h0 : ℚ) * (tw : ℚ) * (mh : ℚ) := by
          rw [hXmul]
        have p1 : (V - 1 / 2) * ((h0 : ℚ) * (h : ℚ)) <
            (fw : ℚ) * ((h0 : ℚ) * (h : ℚ)) :=
          mul_lt_mul_of_pos_right hfwb2 (mul_pos hh0Q hhQ)
        have q1 : (fw : ℚ) * ((h0 : ℚ) * (h : ℚ)) ≤
            (V + 1 / 2) * ((h0 : ℚ) * (h : ℚ)) :=
          mul_le_mul_of_nonneg_right hfwb1 (le_of_lt (mul_pos hh0Q hhQ))
        have p2 : (h : ℚ) * ((w0 : ℚ) * (mh : ℚ)) ≤
            (X + 1 / 2) * ((w0 : ℚ) * (mh : ℚ)) :=
          mul_le_mul_of_nonneg_right hb1 (le_of_lt (mul_pos hw0Q hmhQ))
        have q2 : (X - 1 / 2) * ((w0 : ℚ) * (mh : ℚ)) <
            (h : ℚ) * ((w0 : ℚ) * (mh : ℚ)) :=
          mul_lt_mul_of_pos_right hb2 (mul_pos hw0Q hmhQ)
        rcases le_total (h0 : ℚ) (w0 : ℚ) with hr | hr
        · left
          have p5 : (w0 : ℚ) * (mh : ℚ) < (w0 : ℚ) * (h : ℚ) :=
            mul_lt_mul_of_pos_left hgtQ hw0Q
          have p6 : (h0 : ℚ) * (h : ℚ) ≤ (w0 : ℚ) * (h : ℚ) :=
            mul_le_mul_of_nonneg_right hr (le_of_lt hhQ)
          have hrw : (mh : ℚ) - (fw : ℚ) * (h0 : ℚ) / (w0 : ℚ) =
              ((mh : ℚ) * (w0 : ℚ) * (h : ℚ) -
                (fw : ℚ) * (h0 : ℚ) * (h : ℚ)) / ((w0 : ℚ) * (h : ℚ)) := by
            field_simp
            ring
          rw [abs_le]
          constructor
          · rw [hrw, le_div_iff₀ (mul_pos hw0Q hhQ)]
            linarith [q1, q2, p3, p4, p5, p6]
          · rw [hrw, div_le_one (mul_pos hw0Q hhQ)]
            linarith [p1, p2, p3, p4, p5, p6]
        · right
          have r5 : (w0 : ℚ) * (mh : ℚ) ≤ (h0 : ℚ) * (mh : ℚ) :=
            mul_le_mul_of_nonneg_right hr (le_of_lt hmhQ)
          have r6 : (h0 : ℚ) * (mh : ℚ) < (h0 : ℚ) * (h : ℚ) :=
            mul_lt_mul_of_pos_left hgtQ hh0Q
          have hrw : (fw : ℚ) - (mh : ℚ) * (w0 : ℚ) / (h0 : ℚ) =
              ((fw : ℚ) * (h0 : ℚ) * (h : ℚ) -
                (mh : ℚ) * (w0 : ℚ) * (h : ℚ)) / ((h0 : ℚ) * (h : ℚ)) := by
            field_simp
            ring
          rw [abs_le]
          constructor
          · rw [hrw, le_div_iff₀ (mul_pos hh0Q hhQ)]
            linarith [p1, p2, p3, p4, r5, r6]
          · rw [hrw, div_le_one (mul_pos hh0Q hhQ)]
            linarith [q1, q2, p3, p4, r5, r6]
    · rw [if_neg hgt]
      push_neg at hgt
      refine ⟨hgt, le_refl tw, Or.inl ?_⟩
      have hXexpr : (tw : ℚ) * (h0 : ℚ) / (w0 : ℚ) = X := by
        rw [div_eq_iff (ne_of_gt hw0Q)]
        linarith [hXmul]
      show |((h : ℤ) : ℚ) - (tw : ℚ) * (h0 : ℚ) / (w0 : ℚ)| ≤ 1
      rw [hXexpr, abs_le]
      constructor <;> linarith [hb1, hb2]
  · norm_num [fitLogoDims, jsRound]

/-- Witness for C7 at the claim's own example dimensions. -/
theorem claim_C7_witness :
    (fitLogoDims 4000 2000 120 100).2 ≤ 100 ∧
    fitLogoDims 4000 2000 120 100 = (120, 60) :=
  ⟨((claim_C7 4000 2000 120 100 (by norm_num) (by norm_num) (by norm_num)
      (by norm_num)).1).1,
   (claim_C7 4000 2000 120 100 (by norm_num) (by norm_num) (by norm_num)
      (by norm_num)).2⟩

/-! ## Helper lemmas: the merge stage -/

/-- A type returned by the section-splitting regex is one of the five
marker alternatives. -/
theorem matchSectionMarker_valid {t : JStr} {ty : String} {rest : JStr}
    (h : matchSectionMarker t = some (ty, rest)) : ty ∈ sectionMarkerTypes := by
  unfold matchSectionMarker at h
  cases hf : sectionMarkerTypes.find? (fun ty =>
      (("[" ++ ty ++ "]").data).isPrefixOf (toLowerStr t)) with
  | none => rw [hf] at h; exact absurd h (by simp)
  | some ty' =>
    rw [hf] at h
    simp only [Option.some.injEq, Prod.mk.injEq] at h
    rw [← h.1]
    exact List.mem_of_find?_eq_some hf

/-- Every section produced by the extraction loop carries one of the five
marker types, provided the pending section does. -/
theorem extractGo_types (lines : List JStr) :
    ∀ cur : Option CurSec,
      (∀ c, cur = some c → c.type ∈ sectionMarkerTypes) →
      ∀ sec ∈ extractGo lines cur, sec.type ∈ sectionMarkerTypes := by
  induction lines with
  | nil =>
    intro cur hcur sec hsec
    cases cur with
    | none => simp [extractGo] at hsec
    | some c =>
      simp only [extractGo, List.mem_singleton] at hsec
      rw [hsec]
      simpa [finishSec] using hcur c rfl
  | cons l ls ih =>
    intro cur hcur sec hsec
    simp only [extractGo] at hsec
    by_cases hb : trimStr l = []
    · rw [if_pos hb] at hsec
      exact ih cur hcur sec hsec
    · rw [if_neg hb] at hsec
      cases hm : matchSectionMarker (trimStr l) with
      | some p =>
        obtain ⟨ty, rest⟩ := p
        rw [hm, List.mem_append] at hsec
        rcases hsec with hsec | hsec
        · cases cur with
          | none => simp at hsec
          | some c =>
            simp only [List.mem_singleton] at hsec
            rw [hsec]
            simpa [finishSec] using hcur c rfl
        · refine ih _ (fun c hc => ?_) sec hsec
          injection hc with hc'
          rw [← hc']
          exact matchSectionMarker_valid hm
      | none =>
        rw [hm] at hsec
        cases cur with
        | none => exact ih none (by simp) sec hsec
        | some c =>
          refine ih _ (fun c' hc' => ?_) sec hsec
          injection hc' with h''
          rw [← h'']
          exact hcur c rfl

/-- Every line produced by the per-section post-processing starts with
that section's own tag. -/
theorem annotateLines_shape (ty : String) (proc : JStr) :
    ∀ line ∈ annotateLines ty proc, ∃ rest : JStr,
      line = '[' :: ty.data ++ ']' :: ' ' :: rest := by
  intro line h
  unfold annotateLines at h
  rw [List.mem_map] at h
  obtain ⟨l, -, rfl⟩ := h
  exact ⟨trimStr (stripLeadingTag l), rfl⟩

/-- Every line accumulated by the per-section loop begins with the tag of
a valid section type. -/
theorem processSectionsGo_good (env : Env) (oracle : Nat → Nat → Option JStr)
    (title : JStr) :
    ∀ (secs : List Sec) (idx : Nat) (ls : List JStr) (idx' : Nat),
      (∀ s ∈ secs, s.type ∈ sectionMarkerTypes) →
      processSectionsGo env oracle title secs idx = .ok (ls, idx') →
      ∀ line ∈ ls, ∃ ty rest, ty ∈ sectionMarkerTypes ∧
        line = '[' :: ty.data ++ ']' :: ' ' :: rest := by
  intro secs
  induction secs with
  | nil =>
    intro idx ls idx' _ h line hline
    simp only [processSectionsGo, Except.ok.injEq, Prod.mk.injEq] at h
    rw [← h.1] at hline
    simp at hline
  | cons sec rest ih =>
    intro idx ls idx' hvalid h line hline
    simp only [processSectionsGo] at h
    by_cases hc : sec.type ≠ "" ∧ sec.content ≠ []
    · rw [if_pos hc] at h
      cases hp : processSection env (oracle idx) sec.type sec.content title with
      | error e => rw [hp] at h; exact absurd h (by simp)
      | ok out =>
        rw [hp] at h
        cases hg : processSectionsGo env oracle title rest (idx + 1) with
        | error e => rw [hg] at h; exact absurd h (by simp)
        | ok p =>
          obtain ⟨ls', idx''⟩ := p
          rw [hg] at h
          simp only [Except.ok.injEq, Prod.mk.injEq] at h
          rw [← h.1, List.mem_append] at hline
          rcases hline with hl | hl
          · obtain ⟨r, hr⟩ := annotateLines_shape _ _ line hl
            exact ⟨sec.type, r, hvalid sec (List.mem_cons_self sec rest), hr⟩
          · exact ih (idx + 1) ls' idx''
              (fun s hs => hvalid s (List.mem_cons_of_mem sec hs)) hg line hl
    · rw [if_neg hc] at h
      exact ih idx ls idx'
        (fun s hs => hvalid s (List.mem_cons_of_mem sec hs)) h line hline

/-! ## Claim theorems: merge stage -/

/-- **C10 (counterexample).** The claim states that every output line
begins with exactly one category tag, any leading bracket tag echoed back
by the external service having been stripped before re-annotation; but the
code strips only one leading tag, so when the service echoes two stacked
tags (`"[bug] [bug] x"`) the output line is
`"[funcionalidade] [bug] x"` — its content still begins with a further
bracket tag after the single stripped one. -/
theorem claim_C10_counterexample :
    processAllSectionsResults ⟨fun _ => some "prompt", 3, 2000⟩
        (fun _ _ => some "[bug] [bug] x".data) "t".data
        "[funcionalidade] algo".data =
      .ok ["[funcionalidade] [bug] x".data] ∧
    "[funcionalidade] [bug] x".data =
      '[' :: "funcionalidade".data ++ ']' :: ' ' :: "[bug] x".data ∧
    hasLeadingBracketTag "[bug] x".data = true := by
  refine ⟨?_, by decide, by decide⟩
  rfl

/-- **C10 (amended).** Every line of the content stream returned by
`processAllSections` is non-blank and begins with the category tag
`"[<type>] "` of the section that produced it, where `<type>` is one of
the five supported section types (on both the success and the fallback
path, one leading bracket tag of the processed text is stripped before
re-annotation — but only one, so stacked echoed tags can survive in the
remainder). -/
theorem claim_C10 (env : Env) (oracle : Nat → Nat → Option JStr)
    (title description : JStr) (results : List JStr)
    (h : processAllSectionsResults env oracle title description = .ok results) :
    ∀ line ∈ results, line ≠ [] ∧ ∃ ty rest, ty ∈ sectionMarkerTypes ∧
      line = '[' :: ty.data ++ ']' :: ' ' :: rest := by
  unfold processAllSectionsResults at h
  cases hg : processSectionsGo env oracle title
      (extractSectionsFromContent description) 0 with
  | error e => rw [hg] at h; simp at h
  | ok p =>
    obtain ⟨res0, idx⟩ := p
    rw [hg] at h
    dsimp only at h
    by_cases hres : res0 = []
    · rw [if_pos hres] at h
      cases hp : processSection env (oracle idx) "funcionalidade"
          description title with
      | error e => rw [hp] at h; simp at h
      | ok out =>
        rw [hp] at h
        dsimp only at h
        simp only [Except.ok.injEq] at h
        intro line hline
        rw [← h] at hline
        obtain ⟨r, hr⟩ := annotateLines_shape _ _ line hline
        exact ⟨by rw [hr]; simp, "funcionalidade", r,
          by simp [sectionMarkerTypes], hr⟩
    · rw [if_neg hres] at h
      simp only [Except.ok.injEq] at h
      intro line hline
      rw [← h] at hline
      obtain ⟨ty, r, hty, hr⟩ := processSectionsGo_good env oracle title _ 0
        res0 idx
        (extractGo_types _ none (fun c hc => by cases hc)) hg line hline
      exact ⟨by rw [hr]; simp, ty, r, hty, hr⟩

/-- Witness for C10's amended statement on the concrete run of the
counterexample scenario. -/
theorem claim_C10_witness :
    ("[funcionalidade] [bug] x".data : JStr) ≠ [] ∧
    ∃ ty rest, ty ∈ sectionMarkerTypes ∧
      ("[funcionalidade] [bug] x".data : JStr) =
        '[' :: ty.data ++ ']' :: ' ' :: rest := by
  have h := claim_C10 ⟨fun _ => some "prompt", 3, 2000⟩
    (fun _ _ => some "[bug] [bug] x".data) "t".data
    "[funcionalidade] algo".data ["[funcionalidade] [bug] x".data]
    (by rfl)
  exact h "[funcionalidade] [bug] x".data (by simp)

end PhosDocs
